import Mathlib

set_option maxRecDepth 100000

/-!
Shallow embedding of `terraform-provider-stateful` (package `stateful`,
file `resource_stateful.go`).

The provider manages a resource with fields `desired` (string or flat
string-to-string map), `real` (optional, same shape) and `hash` (computed).
The core logic embedded here:

* `getSHA256` — `json.Marshal` of the value followed by SHA-256, rendered
  as lowercase hex (`fmt.Sprintf`) with the format x applied to the digest
  bytes.  Go serializes maps with keys in sorted order.
* `createResource` / `readResource` / `updateResource` / `deleteResource` —
  the four lifecycle handlers; all return a nil error.
* `diffResource` — the `CustomizeDiff` policy, modelled as a pure function
  producing the decision record for the `real` and `hash` fields
  (`keep` = no mutation, `clear` = `d.Clear`, `recompute` = `d.SetNewComputed`).

Dynamic values (`interface\x7b\x7d` holding `string` or
`map[string]interface\x7b\x7d`) become the tagged variant `Value`.
Machine integers (`uint32` inside SHA-256) are `Nat` reduced mod `2 ^ 32`.
-/

/-- A dynamic attribute value: an opaque string or a flat string-to-string
mapping (Go `string` or `map[string]interface\x7b\x7d` with string values).
A Go map is unordered with unique keys; the entry list is its contents. -/
inductive Value where
  | str (s : String)
  | map (entries : List (String × String))
deriving DecidableEq, Repr

/-- Codepoint-wise lexicographic string comparison.  Go sorts map keys
with byte-wise string order, which on UTF-8 text agrees with codepoint
order. -/
def strLE : List Char → List Char → Bool
  | [], _ => true
  | _ :: _, [] => false
  | x :: xs, y :: ys =>
    decide (x.toNat < y.toNat) || (x.toNat == y.toNat && strLE xs ys)

/-- Key-order relation used when Go serializes map content: entries
ordered by key. -/
def keyLE (a b : String × String) : Prop := strLE a.1.data b.1.data = true

instance : DecidableRel keyLE :=
  fun a b => inferInstanceAs (Decidable (strLE a.1.data b.1.data = true))

/-- Strict key order, used to show that sorting canonicalizes entry lists
with duplicate-free keys. -/
def keyLT (a b : String × String) : Prop := strLE b.1.data a.1.data = false

theorem strLE_total (a : List Char) : ∀ b, strLE a b = true ∨ strLE b a = true := by
  induction a with
  | nil => intro b; exact Or.inl rfl
  | cons x xs ih =>
    intro b
    cases b with
    | nil => exact Or.inr rfl
    | cons y ys =>
      simp only [strLE, Bool.or_eq_true, Bool.and_eq_true, decide_eq_true_eq, beq_iff_eq]
      rcases Nat.lt_trichotomy x.toNat y.toNat with h | h | h
      · exact Or.inl (Or.inl h)
      · rcases ih ys with h2 | h2
        · exact Or.inl (Or.inr ⟨h, h2⟩)
        · exact Or.inr (Or.inr ⟨h.symm, h2⟩)
      · exact Or.inr (Or.inl h)

theorem strLE_trans (a : List Char) :
    ∀ b c, strLE a b = true → strLE b c = true → strLE a c = true := by
  induction a with
  | nil => intro b c _ _; rfl
  | cons x xs ih =>
    intro b c hab hbc
    cases b with
    | nil => simp [strLE] at hab
    | cons y ys =>
      cases c with
      | nil => simp [strLE] at hbc
      | cons z zs =>
        simp only [strLE, Bool.or_eq_true, Bool.and_eq_true, decide_eq_true_eq,
          beq_iff_eq] at hab hbc ⊢
        rcases hab with h1 | ⟨h1, h1t⟩ <;> rcases hbc with h2 | ⟨h2, h2t⟩
        · exact Or.inl (by omega)
        · exact Or.inl (by omega)
        · exact Or.inl (by omega)
        · exact Or.inr ⟨by omega, ih ys zs h1t h2t⟩

theorem strLE_antisymm (a : List Char) :
    ∀ b, strLE a b = true → strLE b a = true → a = b := by
  induction a with
  | nil =>
    intro b _ hba
    cases b with
    | nil => rfl
    | cons y ys => simp [strLE] at hba
  | cons x xs ih =>
    intro b hab hba
    cases b with
    | nil => simp [strLE] at hab
    | cons y ys =>
      simp only [strLE, Bool.or_eq_true, Bool.and_eq_true, decide_eq_true_eq,
        beq_iff_eq] at hab hba
      rcases hab with h1 | ⟨h1, h1t⟩ <;> rcases hba with h2 | ⟨h2, h2t⟩
      · exact ((by omega : False)).elim
      · exact ((by omega : False)).elim
      · exact ((by omega : False)).elim
      · have hxy : x = y := by simpa using congrArg Char.ofNat h1
        rw [hxy, ih ys h1t h2t]

instance : IsTotal (String × String) keyLE :=
  ⟨fun a b => strLE_total a.1.data b.1.data⟩

instance : IsTrans (String × String) keyLE :=
  ⟨fun a b c => strLE_trans a.1.data b.1.data c.1.data⟩

instance : IsAntisymm (String × String) keyLT :=
  ⟨fun a b h h' => by
    rcases strLE_total a.1.data b.1.data with ht | ht
    · exact absurd h' (by simp [keyLT, ht])
    · exact absurd h (by simp [keyLT, ht])⟩

/-- A weak key bound together with key distinctness yields the strict key
bound. -/
theorem keyLT_of_keyLE_ne {a b : String × String} (hle : keyLE a b) (hne : a.1 ≠ b.1) :
    keyLT a b := by
  cases hba : strLE b.1.data a.1.data with
  | false => exact hba
  | true =>
    exact absurd (show a.1 = b.1 from
      congrArg String.mk (strLE_antisymm _ _ hle hba)) hne

/-- Map entries in the canonical (key-sorted) order in which `json.Marshal`
emits them. -/
def sortEntries (l : List (String × String)) : List (String × String) :=
  List.insertionSort keyLE l

/-- Structural equality of dynamic values, as computed by
`reflect.DeepEqual` on the values handed to `diffResource`: string equality
for strings, content equality (order-insensitive) for maps, `false` across
shapes. -/
def deepEqual : Value → Value → Bool
  | .str a, .str b => a == b
  | .map a, .map b => decide (sortEntries a = sortEntries b)
  | _, _ => false

/-- Lowercase hex digit for `n < 16` (the digit table used by both Go's
`fmt` x format and `encoding/json` escapes). -/
def hexChar (n : Nat) : Char :=
  if n < 10 then Char.ofNat (48 + n) else Char.ofNat (87 + n)

/-- The lowercase hexadecimal alphabet. -/
def hexDigits : List Char := "0123456789abcdef".data

/-- Two lowercase hex digits for a byte, as Go's `fmt` x format prints each
digest byte (zero-padded). -/
def byteToHex (b : Nat) : List Char :=
  [hexChar (b / 16 % 16), hexChar (b % 16)]

/-- UTF-8 encoding of one character (Go strings are UTF-8 bytes). -/
def utf8Encode (c : Char) : List Nat :=
  let n := c.toNat
  if n < 128 then [n]
  else if n < 2048 then [192 ||| (n >>> 6), 128 ||| (n &&& 63)]
  else if n < 65536 then
    [224 ||| (n >>> 12), 128 ||| ((n >>> 6) &&& 63), 128 ||| (n &&& 63)]
  else
    [240 ||| (n >>> 18), 128 ||| ((n >>> 12) &&& 63),
     128 ||| ((n >>> 6) &&& 63), 128 ||| (n &&& 63)]

/-- JSON escaping of one character as Go's `encoding/json` does with its
default HTML-escaping encoder: quote and backslash get a backslash escape,
newline / carriage-return / tab use their short forms, other control
characters use a lowercase unicode escape, the HTML-sensitive characters
and the line/paragraph separators use unicode escapes, everything else is
emitted verbatim. -/
def escapeChar (c : Char) : List Char :=
  if c = '"' then ['\\', '"']
  else if c = '\\' then ['\\', '\\']
  else if c = '\n' then ['\\', 'n']
  else if c = '\r' then ['\\', 'r']
  else if c = '\t' then ['\\', 't']
  else if c.toNat < 32 then
    ['\\', 'u', '0', '0', hexChar (c.toNat / 16 % 16), hexChar (c.toNat % 16)]
  else if c = '<' then ['\\', 'u', '0', '0', '3', 'c']
  else if c = '>' then ['\\', 'u', '0', '0', '3', 'e']
  else if c = '&' then ['\\', 'u', '0', '0', '2', '6']
  else if c.toNat = 8232 then ['\\', 'u', '2', '0', '2', '8']
  else if c.toNat = 8233 then ['\\', 'u', '2', '0', '2', '9']
  else [c]

/-- A JSON string literal: opening quote, escaped characters, closing
quote. -/
def jsonStringChars (s : String) : List Char :=
  '"' :: (s.data.flatMap escapeChar) ++ ['"']

/-- One serialized `"key":"value"` member. -/
def entryChars (e : String × String) : List Char :=
  jsonStringChars e.1 ++ ':' :: jsonStringChars e.2

/-- Comma-separated object members. -/
def mapChars : List (String × String) → List Char
  | [] => []
  | [e] => entryChars e
  | e :: rest => entryChars e ++ ',' :: mapChars rest

/-- Canonical JSON text of a value, exactly as `json.Marshal` produces it:
a string literal for strings, a sorted-key object for maps. -/
def serializeValue : Value → List Char
  | .str s => jsonStringChars s
  | .map l => '\x7b' :: mapChars (sortEntries l) ++ ['\x7d']

/-- Canonical JSON serialization as a byte sequence (UTF-8). -/
def jsonBytes (v : Value) : List Nat :=
  (serializeValue v).flatMap utf8Encode

/-- Reduction of a `Nat` to a 32-bit word (`uint32` arithmetic). -/
def wmask (n : Nat) : Nat := n % 4294967296

/-- 32-bit right rotation (operand assumed `< 2 ^ 32`). -/
def rotr (n x : Nat) : Nat := wmask ((x >>> n) ||| (x <<< (32 - n)))

/-- SHA-256 Σ0. -/
def bigSigma0 (x : Nat) : Nat := rotr 2 x ^^^ rotr 13 x ^^^ rotr 22 x

/-- SHA-256 Σ1. -/
def bigSigma1 (x : Nat) : Nat := rotr 6 x ^^^ rotr 11 x ^^^ rotr 25 x

/-- SHA-256 σ0. -/
def smallSigma0 (x : Nat) : Nat := rotr 7 x ^^^ rotr 18 x ^^^ (x >>> 3)

/-- SHA-256 σ1. -/
def smallSigma1 (x : Nat) : Nat := rotr 17 x ^^^ rotr 19 x ^^^ (x >>> 10)

/-- SHA-256 Ch (bitwise choose; complement via xor with the 32-bit mask). -/
def chFn (e f g : Nat) : Nat := (e &&& f) ^^^ ((e ^^^ 4294967295) &&& g)

/-- SHA-256 Maj (bitwise majority). -/
def majFn (a b c : Nat) : Nat := (a &&& b) ^^^ (a &&& c) ^^^ (b &&& c)

/-- The 64 SHA-256 round constants. -/
def K256 : List Nat :=
  [1116352408, 1899447441, 3049323471, 3921009573, 961987163,
   1508970993, 2453635748, 2870763221, 3624381080, 310598401,
   607225278, 1426881987, 1925078388, 2162078206, 2614888103,
   3248222580, 3835390401, 4022224774, 264347078, 604807628,
   770255983, 1249150122, 1555081692, 1996064986, 2554220882,
   2821834349, 2952996808, 3210313671, 3336571891, 3584528711,
   113926993, 338241895, 666307205, 773529912, 1294757372,
   1396182291, 1695183700, 1986661051, 2177026350, 2456956037,
   2730485921, 2820302411, 3259730800, 3345764771, 3516065817,
   3600352804, 4094571909, 275423344, 430227734, 506948616,
   659060556, 883997877, 958139571, 1322822218, 1537002063,
   1747873779, 1955562222, 2024104815, 2227730452, 2361852424,
   2428436474, 2756734187, 3204031479, 3329325298]

/-- The eight 32-bit working variables of the SHA-256 state. -/
structure Hash8 where
  a : Nat
  b : Nat
  c : Nat
  d : Nat
  e : Nat
  f : Nat
  g : Nat
  h : Nat
deriving DecidableEq, Repr

/-- SHA-256 initial hash value. -/
def initH : Hash8 :=
  ⟨1779033703, 3144134277, 1013904242, 2773480762,
   1359893119, 2600822924, 528734635, 1541459225⟩

/-- Big-endian 8-byte encoding of the message bit length. -/
def lenBytes (n : Nat) : List Nat :=
  [n >>> 56 % 256, n >>> 48 % 256, n >>> 40 % 256, n >>> 32 % 256,
   n >>> 24 % 256, n >>> 16 % 256, n >>> 8 % 256, n % 256]

/-- SHA-256 padding: append `0x80`, zero bytes up to 56 mod 64, then the
bit length in 8 big-endian bytes. -/
def padMsg (msg : List Nat) : List Nat :=
  msg ++ 128 :: List.replicate ((119 - msg.length % 64) % 64) 0
      ++ lenBytes (8 * msg.length)

/-- Big-endian grouping of bytes into 32-bit words. -/
def toWords : List Nat → List Nat
  | a :: b :: c :: d :: rest => (a <<< 24 ||| b <<< 16 ||| c <<< 8 ||| d) :: toWords rest
  | _ => []

/-- Split a byte list into 64-byte blocks (fuel-driven so that it reduces
structurally; call with `fuel = l.length`). -/
def chunk64 : Nat → List Nat → List (List Nat)
  | 0, _ => []
  | _, [] => []
  | fuel + 1, l => l.take 64 :: chunk64 fuel (l.drop 64)

/-- Message-schedule extension: repeatedly append
`σ1(w[i-2]) + w[i-7] + σ0(w[i-15]) + w[i-16]` (mod `2 ^ 32`). -/
def extendW : Nat → List Nat → List Nat
  | 0, ws => ws
  | fuel + 1, ws =>
    let i := ws.length
    let w := wmask (smallSigma1 (ws.getD (i - 2) 0) + ws.getD (i - 7) 0 +
                    smallSigma0 (ws.getD (i - 15) 0) + ws.getD (i - 16) 0)
    extendW fuel (ws ++ [w])

/-- One SHA-256 round, consuming a round constant paired with a schedule
word. -/
def compressRound (st : Hash8) (kw : Nat × Nat) : Hash8 :=
  let t1 := wmask (st.h + bigSigma1 st.e + chFn st.e st.f st.g + kw.1 + kw.2)
  let t2 := wmask (bigSigma0 st.a + majFn st.a st.b st.c)
  ⟨wmask (t1 + t2), st.a, st.b, st.c, wmask (st.d + t1), st.e, st.f, st.g⟩

/-- Process one 64-byte block: extend the schedule to 64 words, run the 64
rounds, add the result into the chaining state. -/
def processBlock (st : Hash8) (block : List Nat) : Hash8 :=
  let ws := extendW 48 (toWords block)
  let r := (K256.zip ws).foldl compressRound st
  ⟨wmask (st.a + r.a), wmask (st.b + r.b), wmask (st.c + r.c), wmask (st.d + r.d),
   wmask (st.e + r.e), wmask (st.f + r.f), wmask (st.g + r.g), wmask (st.h + r.h)⟩

/-- SHA-256 of a byte sequence (`crypto/sha256`). -/
def sha256 (msg : List Nat) : Hash8 :=
  let padded := padMsg msg
  (chunk64 padded.length padded).foldl processBlock initH

/-- Eight lowercase hex digits of one 32-bit word, byte by byte
big-endian. -/
def wordHex (w : Nat) : List Char :=
  byteToHex (w >>> 24 &&& 255) ++ byteToHex (w >>> 16 &&& 255) ++
  byteToHex (w >>> 8 &&& 255) ++ byteToHex (w &&& 255)

/-- The digest as Go renders it: each of the 32 digest bytes as two
lowercase hex digits, 64 characters in all. -/
def hashToHex (st : Hash8) : String :=
  String.mk (wordHex st.a ++ wordHex st.b ++ wordHex st.c ++ wordHex st.d ++
             wordHex st.e ++ wordHex st.f ++ wordHex st.g ++ wordHex st.h)

/-- SHA-256 digest of a byte sequence rendered as lowercase hex. -/
def sha256Hex (msg : List Nat) : String := hashToHex (sha256 msg)

/-- Embedding of `getSHA256`: serialize the value with `json.Marshal`,
hash the bytes with SHA-256, render the digest as lowercase hex. -/
def getSHA256 (o : Value) : String := sha256Hex (jsonBytes o)

/-- Validation of the SHA-256 embedding against the standard empty-message
test vector. -/
theorem sha256Hex_empty_vector : sha256Hex [] =
    "e3b0c44298fc1c149afbf4c8996fb92427ae41e4649b934ca495991b7852b855" := by decide

/-- Validation of the fingerprint pipeline against the digest the
repository's README records for `desired = \x7b"foo":"bar"\x7d`. -/
theorem getSHA256_readme_vector : getSHA256 (Value.map [("foo", "bar")]) =
    "7a38bf81f383f69433ad6e900d35b3e2385593f76a7b7ab5d4355b8ba41ee24b" := by decide

/-- The record held for one resource instance (`schema.ResourceData`):
the identity (`d.Id`, absent before creation), the `desired` value, the
optional `real` value, and the computed `hash` field. -/
structure ResourceData where
  id : Option String
  desired : Value
  real : Option Value
  hash : Option String
deriving DecidableEq, Repr

/-- Embedding of `getStatefulResourceFingerprint`: hash the current
`desired` value. -/
def getStatefulResourceFingerprint (d : ResourceData) : String :=
  getSHA256 d.desired

/-- Embedding of `createResource`: mint the identity (`uuid.NewV4`,
supplied by the host's identity generator as `newId`), set `hash` from
`desired`, return a nil error. -/
def createResource (newId : String) (d : ResourceData) : ResourceData × Option String :=
  let d := { d with id := some newId }
  let d := { d with hash := some (getStatefulResourceFingerprint d) }
  (d, none)

/-- Embedding of `readResource`: recompute `hash` from the current
`desired`, return a nil error. -/
def readResource (d : ResourceData) : ResourceData × Option String :=
  ({ d with hash := some (getStatefulResourceFingerprint d) }, none)

/-- Embedding of `updateResource`: recompute `hash` from the current
`desired`, return a nil error. -/
def updateResource (d : ResourceData) : ResourceData × Option String :=
  ({ d with hash := some (getStatefulResourceFingerprint d) }, none)

/-- Embedding of `deleteResource`: no mutation, nil error. -/
def deleteResource (d : ResourceData) : ResourceData × Option String :=
  (d, none)

/-- Plan decision for one field: `keep` = the diff engine left the field
alone, `clear` = `d.Clear` removed any pending diff on it, `recompute` =
`d.SetNewComputed` marked it "known after apply". -/
inductive FieldAction where
  | keep
  | clear
  | recompute
deriving DecidableEq, Repr

/-- The decision record produced by the diff policy for the `real` and
`hash` (fingerprint) fields. -/
structure DiffDecision where
  real : FieldAction
  fingerprint : FieldAction
deriving DecidableEq, Repr

/-- Embedding of `diffResource` (the `CustomizeDiff` hook).  Inputs:
`desiredValue` = `d.Get(FieldDesired)` (the proposed desired value),
`desiredOld` = the persisted desired value (`d.HasChange(FieldDesired)`
compares it with the proposed one), `realValue` = `d.GetOkExists(FieldReal)`
(the persisted real value with its presence flag, `none` when not set).
The in-place mutations of the plan become the decision record, every field
starting at `keep`; the returned error is always nil. -/
def diffResource (desiredValue desiredOld : Value) (realValue : Option Value) :
    DiffDecision × Option String :=
  let d0 : DiffDecision := { real := .keep, fingerprint := .keep }
  let d1 :=
    match realValue with
    | some r =>
      if deepEqual desiredValue r then
        { d0 with real := .clear }
      else
        { d0 with real := .recompute, fingerprint := .recompute }
    | none => { d0 with real := .clear }
  let d2 :=
    if deepEqual desiredValue desiredOld then d1
    else { d1 with fingerprint := .recompute }
  (d2, none)

/-- C1: the claim states that with no persisted real value `diffResource`
marks `real` as recompute; in the code the `realValueIsSet = false` branch
executes `d.Clear(FieldReal)`, so at this concrete input `real` is `clear`,
not `recompute`. -/
theorem C1_counterexample :
    ¬ (diffResource (Value.str "foo") (Value.str "foo") none).1.real =
      FieldAction.recompute := by decide

/-- C1 (amended): for every invocation of `diffResource` in which the
persisted real value is not present, the result clears the pending diff on
the `real` field (`real: clear`), regardless of the proposed and persisted
desired values. -/
theorem C1_real_cleared_when_absent (dp dpers : Value) :
    (diffResource dp dpers none).1.real = FieldAction.clear := by
  cases h : deepEqual dp dpers <;> simp [diffResource, h]

/-- C2: whenever the persisted real value is present and structurally
different from the proposed desired value, `diffResource` marks both
`real` and the fingerprint as recompute — including when the proposed
desired equals the persisted desired. -/
theorem C2_drift_recomputes_real_and_fingerprint (dp dpers r : Value)
    (h : deepEqual dp r = false) :
    (diffResource dp dpers (some r)).1.real = FieldAction.recompute ∧
    (diffResource dp dpers (some r)).1.fingerprint = FieldAction.recompute := by
  cases h2 : deepEqual dp dpers <;> simp [diffResource, h, h2]

/-- C2 witness: spec scenario C — persisted desired = proposed desired =
`\x7b"foo":"bar"\x7d`, real drifted to `\x7b"foo":"wrong"\x7d`. -/
theorem C2_drift_recomputes_real_and_fingerprint_witness :
    deepEqual (Value.map [("foo", "bar")]) (Value.map [("foo", "wrong")]) = false ∧
    (diffResource (Value.map [("foo", "bar")]) (Value.map [("foo", "bar")])
        (some (Value.map [("foo", "wrong")]))).1.real = FieldAction.recompute ∧
    (diffResource (Value.map [("foo", "bar")]) (Value.map [("foo", "bar")])
        (some (Value.map [("foo", "wrong")]))).1.fingerprint = FieldAction.recompute :=
  ⟨by decide,
   (C2_drift_recomputes_real_and_fingerprint _ _ _ (by decide)).1,
   (C2_drift_recomputes_real_and_fingerprint _ _ _ (by decide)).2⟩

/-- C3: whenever the persisted real value is present and structurally equal
to the proposed desired value, `diffResource` clears the pending diff on
`real`; if additionally the proposed desired equals the persisted desired,
the fingerprint is left untouched (`keep`), so no effective change is
reported. -/
theorem C3_converged_clears_real (dp dpers r : Value) (h : deepEqual dp r = true) :
    (diffResource dp dpers (some r)).1.real = FieldAction.clear ∧
    (deepEqual dp dpers = true →
      (diffResource dp dpers (some r)).1.fingerprint = FieldAction.keep) := by
  constructor
  · cases h2 : deepEqual dp dpers <;> simp [diffResource, h, h2]
  · intro h2
    simp [diffResource, h, h2]

/-- C3 witness: spec scenario B — persisted desired = real = proposed
desired = `\x7b"foo":"bar"\x7d`; `real` is cleared and the fingerprint
kept. -/
theorem C3_converged_clears_real_witness :
    deepEqual (Value.map [("foo", "bar")]) (Value.map [("foo", "bar")]) = true ∧
    (diffResource (Value.map [("foo", "bar")]) (Value.map [("foo", "bar")])
        (some (Value.map [("foo", "bar")]))).1.real = FieldAction.clear ∧
    (diffResource (Value.map [("foo", "bar")]) (Value.map [("foo", "bar")])
        (some (Value.map [("foo", "bar")]))).1.fingerprint = FieldAction.keep :=
  ⟨by decide,
   (C3_converged_clears_real _ _ _ (by decide)).1,
   (C3_converged_clears_real _ _ _ (by decide)).2 (by decide)⟩

/-- C4: whenever the proposed desired value differs structurally from the
persisted desired value, `diffResource` marks the fingerprint as
recompute, in every branch of the real comparison (absent, equal or
drifted). -/
theorem C4_desired_change_recomputes_fingerprint (dp dpers : Value)
    (ro : Option Value) (h : deepEqual dp dpers = false) :
    (diffResource dp dpers ro).1.fingerprint = FieldAction.recompute := by
  cases ro with
  | none => simp [diffResource, h]
  | some r => cases h2 : deepEqual dp r <;> simp [diffResource, h, h2]

/-- C4 witness: spec scenario D — proposed desired `\x7b"foo":"baz"\x7d`
against persisted `\x7b"foo":"bar"\x7d`, with a persisted real equal to
the old desired. -/
theorem C4_desired_change_recomputes_fingerprint_witness :
    deepEqual (Value.map [("foo", "baz")]) (Value.map [("foo", "bar")]) = false ∧
    (diffResource (Value.map [("foo", "baz")]) (Value.map [("foo", "bar")])
        (some (Value.map [("foo", "bar")]))).1.fingerprint = FieldAction.recompute :=
  ⟨by decide, C4_desired_change_recomputes_fingerprint _ _ _ (by decide)⟩

/-- C7: `createResource` followed by `readResource` yields the very
fingerprint `createResource` stored; `readResource` is idempotent on the
whole record, and it alters neither `desired` nor the identity. -/
theorem C7_create_read_roundtrip (i : String) (d : ResourceData) :
    (readResource (createResource i d).1).1.hash = (createResource i d).1.hash ∧
    (readResource (readResource d).1).1 = (readResource d).1 ∧
    (readResource d).1.desired = d.desired ∧
    (readResource d).1.id = d.id :=
  ⟨rfl, rfl, rfl, rfl⟩

/-- C8: `updateResource` recomputes the fingerprint from the currently
supplied `desired` value and writes nothing else: identity, `desired` and
`real` are all left unchanged. -/
theorem C8_update_frame (d : ResourceData) :
    (updateResource d).1.hash = some (getSHA256 d.desired) ∧
    (updateResource d).1.id = d.id ∧
    (updateResource d).1.desired = d.desired ∧
    (updateResource d).1.real = d.real :=
  ⟨rfl, rfl, rfl, rfl⟩

/-- C9: on every well-typed input, all four lifecycle handlers and the
diff policy return a nil error — no failure branch is reachable. -/
theorem C9_operations_total (i : String) (d : ResourceData)
    (dp dpers : Value) (ro : Option Value) :
    (createResource i d).2 = none ∧
    (readResource d).2 = none ∧
    (updateResource d).2 = none ∧
    (deleteResource d).2 = none ∧
    (diffResource dp dpers ro).2 = none :=
  ⟨rfl, rfl, rfl, rfl, rfl⟩

/-- C10: `updateResource` and `readResource` are the same function: both
recompute the hash from the current `desired` and return a nil error. -/
theorem C10_update_eq_read : updateResource = readResource := rfl

/-- Entry lists that are pairwise key-ordered and have pairwise distinct
keys are strictly key-ordered. -/
theorem pairwise_keyLT_of_le_ne {l : List (String × String)}
    (hle : l.Pairwise keyLE) (hne : l.Pairwise fun a b => a.1 ≠ b.1) :
    l.Pairwise keyLT := by
  induction l with
  | nil => exact List.Pairwise.nil
  | cons a t ih =>
    cases hle with
    | cons h₁ h₂ =>
      cases hne with
      | cons h₃ h₄ =>
        exact List.Pairwise.cons (fun b hb => keyLT_of_keyLE_ne (h₁ b hb) (h₃ b hb)) (ih h₂ h₄)

/-- Canonicalization: two permutations of the same duplicate-free-keyed
entry list sort to the same list. -/
theorem sortEntries_eq_of_perm {l₁ l₂ : List (String × String)}
    (hn : (l₁.map Prod.fst).Nodup) (hp : l₁.Perm l₂) :
    sortEntries l₁ = sortEntries l₂ := by
  have hp₁ : (sortEntries l₁).Perm l₁ := List.perm_insertionSort keyLE l₁
  have hp₂ : (sortEntries l₂).Perm l₂ := List.perm_insertionSort keyLE l₂
  have hps : (sortEntries l₁).Perm (sortEntries l₂) := hp₁.trans (hp.trans hp₂.symm)
  have hn₁ : ((sortEntries l₁).map Prod.fst).Nodup := ((hp₁.map Prod.fst).nodup_iff).mpr hn
  have hn₂ : ((sortEntries l₂).map Prod.fst).Nodup := ((hps.map Prod.fst).nodup_iff).mp hn₁
  have hs₁ : (sortEntries l₁).Pairwise keyLT :=
    pairwise_keyLT_of_le_ne (List.sorted_insertionSort keyLE l₁) (List.pairwise_map.mp hn₁)
  have hs₂ : (sortEntries l₂).Pairwise keyLT :=
    pairwise_keyLT_of_le_ne (List.sorted_insertionSort keyLE l₂) (List.pairwise_map.mp hn₂)
  exact List.eq_of_perm_of_sorted hps hs₁ hs₂

/-- The fingerprint of a map value depends only on its sorted entry
list. -/
theorem getSHA256_map_congr {l₁ l₂ : List (String × String)}
    (h : sortEntries l₁ = sortEntries l₂) :
    getSHA256 (Value.map l₁) = getSHA256 (Value.map l₂) := by
  simp [getSHA256, sha256Hex, jsonBytes, serializeValue, h]

/-- C5: `getSHA256` is deterministic, agrees on every pair of structurally
equal values (`deepEqual`), and in particular yields the same fingerprint
for any two key-permutations of the same duplicate-free-keyed mapping,
because map keys are serialized in canonical sorted order. -/
theorem C5_fingerprint_deterministic_canonical :
    (∀ v : Value, getSHA256 v = getSHA256 v) ∧
    (∀ v₁ v₂ : Value, deepEqual v₁ v₂ = true → getSHA256 v₁ = getSHA256 v₂) ∧
    (∀ l₁ l₂ : List (String × String), (l₁.map Prod.fst).Nodup → l₁.Perm l₂ →
       getSHA256 (Value.map l₁) = getSHA256 (Value.map l₂)) := by
  refine ⟨fun v => rfl, ?_, ?_⟩
  · intro v₁ v₂ h
    cases v₁ with
    | str s₁ =>
      cases v₂ with
      | str s₂ =>
        simp only [deepEqual, beq_iff_eq] at h
        subst h
        rfl
      | map l₂ => simp [deepEqual] at h
    | map l₁ =>
      cases v₂ with
      | str s₂ => simp [deepEqual] at h
      | map l₂ =>
        simp only [deepEqual, decide_eq_true_eq] at h
        exact getSHA256_map_congr h
  · intro l₁ l₂ hn hp
    exact getSHA256_map_congr (sortEntries_eq_of_perm hn hp)

/-- C5 witness: the two insertion orders of `\x7ba:1, b:2\x7d` are
structurally equal, a permutation with duplicate-free keys, and hash to
the same fingerprint. -/
theorem C5_fingerprint_deterministic_canonical_witness :
    deepEqual (Value.map [("a", "1"), ("b", "2")]) (Value.map [("b", "2"), ("a", "1")]) = true ∧
    ([("a", "1"), ("b", "2")].map Prod.fst).Nodup ∧
    ([("a", "1"), ("b", "2")].Perm [("b", "2"), ("a", "1")]) ∧
    getSHA256 (Value.map [("a", "1"), ("b", "2")]) =
      getSHA256 (Value.map [("b", "2"), ("a", "1")]) :=
  ⟨by decide, by decide, by decide,
   C5_fingerprint_deterministic_canonical.2.2 _ _ (by decide) (by decide)⟩

/-- Every lowercase hex digit produced from a reduced nibble is in the
hex alphabet. -/
theorem hexChar_mod_mem (n : Nat) : hexChar (n % 16) ∈ hexDigits := by
  have hlt : n % 16 < 16 := Nat.mod_lt _ (by norm_num)
  have hall : ∀ m < 16, hexChar m ∈ hexDigits := by decide
  exact hall _ hlt

/-- Both characters printed for a byte are lowercase hex digits. -/
theorem mem_byteToHex {c : Char} {b : Nat} (h : c ∈ byteToHex b) : c ∈ hexDigits := by
  simp only [byteToHex, List.mem_cons, List.not_mem_nil, or_false] at h
  rcases h with rfl | rfl
  · exact hexChar_mod_mem _
  · exact hexChar_mod_mem _

/-- All eight characters printed for a word are lowercase hex digits. -/
theorem mem_wordHex {c : Char} {w : Nat} (h : c ∈ wordHex w) : c ∈ hexDigits := by
  simp only [wordHex, List.mem_append] at h
  rcases h with ((h | h) | h) | h <;> exact mem_byteToHex h

/-- Every character of a rendered digest is a lowercase hex digit. -/
theorem mem_hashToHex {st : Hash8} {c : Char} (h : c ∈ (hashToHex st).data) :
    c ∈ hexDigits := by
  have h' : c ∈ wordHex st.a ++ wordHex st.b ++ wordHex st.c ++ wordHex st.d ++
      wordHex st.e ++ wordHex st.f ++ wordHex st.g ++ wordHex st.h := h
  simp only [List.mem_append] at h'
  rcases h' with ((((((h' | h') | h') | h') | h') | h') | h') | h' <;> exact mem_wordHex h'

/-- C6: `getSHA256` returns the SHA-256 digest of the value's canonical
JSON serialization rendered as a lowercase hexadecimal string of exactly
64 characters; in particular the fingerprint of `\x7b"foo":"bar"\x7d` is
the SHA-256 of the canonical JSON text, whose value the repository's own
README records. -/
theorem C6_fingerprint_is_sha256_hex :
    (∀ v : Value,
       getSHA256 v = sha256Hex (jsonBytes v) ∧
       (getSHA256 v).length = 64 ∧
       ∀ c ∈ (getSHA256 v).data, c ∈ hexDigits) ∧
    getSHA256 (Value.map [("foo", "bar")]) =
      sha256Hex (("\x7b\"foo\":\"bar\"\x7d").data.flatMap utf8Encode) ∧
    getSHA256 (Value.map [("foo", "bar")]) =
      "7a38bf81f383f69433ad6e900d35b3e2385593f76a7b7ab5d4355b8ba41ee24b" := by
  refine ⟨fun v => ⟨rfl, rfl, fun c hc => mem_hashToHex hc⟩, by decide, by decide⟩

/-- C6 witness: the fingerprint of the string value `foo` has length 64
and its first character is a lowercase hex digit. -/
theorem C6_fingerprint_is_sha256_hex_witness :
    (getSHA256 (Value.str "foo")).length = 64 ∧
    'b' ∈ (getSHA256 (Value.str "foo")).data ∧
    'b' ∈ hexDigits :=
  ⟨(C6_fingerprint_is_sha256_hex.1 (Value.str "foo")).2.1,
   by decide,
   (C6_fingerprint_is_sha256_hex.1 (Value.str "foo")).2.2 'b' (by decide)⟩
